import Mathlib

/-!
Verification of the `zap` encrypted file-transfer program.

Bytes are modelled as `Nat` values (reduced mod 256 where the code produces
them), byte strings as `List Nat`, and machine integers as `Nat` with
explicit `% 2 ^ 32` / `% 2 ^ 64` where overflow matters.  Randomness
(the nonce drawn by `Cipher::encrypt`) is externalized as an explicit
parameter.  Fallible operations return `Except` or `Option`.

The AEAD primitive used by `src/crypto/mod.rs` is the external
`chacha20poly1305` crate; it is modelled concretely following RFC 8439
(ChaCha20 block function, Poly1305 one-time authenticator, and the
AEAD composition), so that `Cipher.encrypt` / `Cipher.decrypt` below are
executable end to end.
-/

namespace Zap

/-! ### Byte-level helpers -/

/-- Little-endian 4-byte encoding of a 32-bit value. -/
def u32le (x : Nat) : List Nat :=
  [x % 256, x / 256 % 256, x / 65536 % 256, x / 16777216 % 256]

/-- Little-endian 8-byte encoding of a 64-bit value. -/
def u64le (x : Nat) : List Nat :=
  [x % 256, x / 2 ^ 8 % 256, x / 2 ^ 16 % 256, x / 2 ^ 24 % 256,
   x / 2 ^ 32 % 256, x / 2 ^ 40 % 256, x / 2 ^ 48 % 256, x / 2 ^ 56 % 256]

/-- Interpret a byte list as a little-endian natural number. -/
def leNum : List Nat → Nat
  | [] => 0
  | b :: rest => b % 256 + 256 * leNum rest

/-- 32-bit left rotation. -/
def rotl32 (x n : Nat) : Nat := (x * 2 ^ n + x / 2 ^ (32 - n)) % 2 ^ 32

/-- Split a byte list into consecutive blocks of `sz` bytes (the final
block possibly shorter); mirrors both the 64 KiB file chunker and the
16-byte Poly1305 block walk. -/
def blocksOf (sz : Nat) (l : List Nat) : List (List Nat) :=
  if l = [] ∨ sz = 0 then [] else l.take sz :: blocksOf sz (l.drop sz)
  termination_by l.length
  decreasing_by
    rename_i h
    push_neg at h
    simp only [List.length_drop]
    exact Nat.sub_lt (List.length_pos.mpr h.1) (Nat.pos_of_ne_zero h.2)

/-! ### ChaCha20 block function (RFC 8439 §2.3)

The state is a list of 16 words of 32 bits; the block function runs ten
double rounds and adds the initial state word-wise. -/

/-- One ChaCha quarter round applied at state positions `a b c d`. -/
def chachaQR (s : List Nat) (a b c d : Nat) : List Nat :=
  let A0 := s.getD a 0
  let B0 := s.getD b 0
  let C0 := s.getD c 0
  let D0 := s.getD d 0
  let A1 := (A0 + B0) % 2 ^ 32
  let D1 := rotl32 (D0 ^^^ A1) 16
  let C1 := (C0 + D1) % 2 ^ 32
  let B1 := rotl32 (B0 ^^^ C1) 12
  let A2 := (A1 + B1) % 2 ^ 32
  let D2 := rotl32 (D1 ^^^ A2) 8
  let C2 := (C1 + D2) % 2 ^ 32
  let B2 := rotl32 (B1 ^^^ C2) 7
  ((((((((s.set a A2).set b B2).set c C2).set d D2)))))

/-- One double round: four column rounds then four diagonal rounds. -/
def chachaDoubleRound (s : List Nat) : List Nat :=
  let s1 := chachaQR s 0 4 8 12
  let s2 := chachaQR s1 1 5 9 13
  let s3 := chachaQR s2 2 6 10 14
  let s4 := chachaQR s3 3 7 11 15
  let s5 := chachaQR s4 0 5 10 15
  let s6 := chachaQR s5 1 6 11 12
  let s7 := chachaQR s6 2 7 8 13
  chachaQR s7 3 4 9 14

/-- Iterate the double round `n` times. -/
def chachaRounds : Nat → List Nat → List Nat
  | 0, s => s
  | n + 1, s => chachaRounds n (chachaDoubleRound s)

/-- Initial ChaCha state: four constants, eight key words, the block
counter, and three nonce words, all little-endian. -/
def chachaInit (key nonce : List Nat) (counter : Nat) : List Nat :=
  [0x61707865, 0x3320646e, 0x79622d32, 0x6b206574] ++
  (List.range 8).map (fun i => leNum ((key.drop (4 * i)).take 4)) ++
  [counter % 2 ^ 32] ++
  (List.range 3).map (fun i => leNum ((nonce.drop (4 * i)).take 4))

/-- The serialized 64-byte ChaCha block for a given counter. -/
def chachaBlock (key nonce : List Nat) (counter : Nat) : List Nat :=
  let init := chachaInit key nonce counter
  let fin := List.zipWith (fun a b => (a + b) % 2 ^ 32) init (chachaRounds 10 init)
  fin.flatMap u32le

/-- Byte `i` of the ChaCha20 keystream used for encryption; the stream
starts at block counter 1 (counter 0 makes the Poly1305 one-time key). -/
def chachaStreamByte (key nonce : List Nat) (i : Nat) : Nat :=
  (chachaBlock key nonce (1 + i / 64)).getD (i % 64) 0

/-- The first `len` keystream bytes. -/
def chachaKeystream (key nonce : List Nat) (len : Nat) : List Nat :=
  (List.range len).map (chachaStreamByte key nonce)

/-- XOR a message with the keystream: ChaCha20 encryption and decryption. -/
def chachaXor (key nonce msg : List Nat) : List Nat :=
  List.zipWith (fun a b => a ^^^ b) msg (chachaKeystream key nonce msg.length)

/-! ### Poly1305 one-time authenticator (RFC 8439 §2.5) -/

/-- Clamp the `r` half of the one-time key. -/
def polyClamp (r : Nat) : Nat := r &&& 0x0ffffffc0ffffffc0ffffffc0fffffff

/-- The Poly1305 prime `2 ^ 130 - 5`. -/
def polyP : Nat := 2 ^ 130 - 5

/-- Accumulate the 16-byte blocks of the message. -/
def polyAccum (r : Nat) (acc : Nat) : List (List Nat) → Nat
  | [] => acc
  | b :: rest => polyAccum r ((acc + (leNum b + 2 ^ (8 * b.length))) * r % polyP) rest

/-- The 16-byte Poly1305 tag of `msg` under the 32-byte one-time key. -/
def poly1305Tag (otk msg : List Nat) : List Nat :=
  let r := polyClamp (leNum (otk.take 16))
  let s := leNum ((otk.drop 16).take 16)
  let acc := polyAccum r 0 (blocksOf 16 msg)
  (List.range 16).map (fun i => (acc + s) % 2 ^ 128 / 2 ^ (8 * i) % 256)

/-! ### ChaCha20-Poly1305 AEAD composition (RFC 8439 §2.8), with the empty
associated data the `chacha20poly1305` crate's plain `encrypt`/`decrypt`
entry points use. -/

/-- Poly1305 input for ciphertext `ct` and empty associated data:
the ciphertext padded to 16 bytes, then the two 8-byte lengths. -/
def aeadMacData (ct : List Nat) : List Nat :=
  ct ++ List.replicate ((16 - ct.length % 16) % 16) 0 ++ u64le 0 ++ u64le ct.length

/-- The Poly1305 one-time key: first 32 bytes of ChaCha block 0. -/
def aeadOtk (key nonce : List Nat) : List Nat := (chachaBlock key nonce 0).take 32

/-- AEAD seal: ciphertext followed by its 16-byte tag. -/
def aeadEncrypt (key nonce pt : List Nat) : List Nat :=
  let ct := chachaXor key nonce pt
  ct ++ poly1305Tag (aeadOtk key nonce) (aeadMacData ct)

/-- AEAD open: split off the trailing 16-byte tag, recompute it, and
decrypt only on a match; `none` models the crate's opaque `aead::Error`. -/
def aeadDecrypt (key nonce data : List Nat) : Option (List Nat) :=
  if data.length < 16 then none
  else
    let ct := data.take (data.length - 16)
    let tag := data.drop (data.length - 16)
    if tag = poly1305Tag (aeadOtk key nonce) (aeadMacData ct) then
      some (chachaXor key nonce ct)
    else none

/-! ### `src/crypto/mod.rs` -/

/-- `NONCE_SIZE` from `src/crypto/mod.rs`. -/
def nonceSize : Nat := 12

/-- `Cipher` holds a `ChaCha20Poly1305` instance, i.e. a 32-byte key.
`Cipher::new` / `Cipher::from_password` derive the key by hashing the
secret with SHA-256 (an external crate); every claim below holds for an
arbitrary key, so the cipher is quantified over its key bytes. -/
structure Cipher where
  key : List Nat
deriving DecidableEq

/-- `Cipher::encrypt`: draw a nonce (externalized as the `nonceBytes`
argument, the code fills it from `rand::thread_rng`), seal with
ChaCha20-Poly1305, and prepend the nonce to the ciphertext. -/
def Cipher.encrypt (c : Cipher) (nonceBytes data : List Nat) : List Nat :=
  nonceBytes ++ aeadEncrypt c.key nonceBytes data

/-- `Cipher::decrypt`: reject inputs shorter than the nonce, split the
12-byte nonce off the front, and open the remainder. -/
def Cipher.decrypt (c : Cipher) (data : List Nat) : Except String (List Nat) :=
  if data.length < nonceSize then
    Except.error "Data too short to contain nonce"
  else
    let nonceBytes := data.take nonceSize
    let ciphertext := data.drop nonceSize
    match aeadDecrypt c.key nonceBytes ciphertext with
    | some pt => Except.ok pt
    | none => Except.error "Decryption failed"

/-- `KeyExchange`: the Rust struct stores a `Spake2<Ed25519Group>` state
started from the code and a per-role identity string; the model keeps
those two inputs, which is all the struct is built from. -/
structure KeyExchange where
  code : String
  identity : String
deriving DecidableEq

/-- `KeyExchange::new_sender`: start SPAKE2 with identity `zap-sender`. -/
def KeyExchange.new_sender (code : String) : KeyExchange :=
  ⟨code, "zap-sender"⟩

/-- `KeyExchange::new_receiver`: start SPAKE2 with identity `zap-receiver`. -/
def KeyExchange.new_receiver (code : String) : KeyExchange :=
  ⟨code, "zap-receiver"⟩

/-- `KeyExchange::outbound_message` returns `vec![]` unconditionally. -/
def KeyExchange.outbound_message (_k : KeyExchange) : List Nat := []

/-- `KeyExchange::finish` ignores its state and the peer message and
returns `Ok(vec![0u8; 32])` unconditionally. -/
def KeyExchange.finish (_k : KeyExchange) (_peer_message : List Nat) :
    Except String (List Nat) :=
  Except.ok (List.replicate 32 0)

/-! ### `src/protocol/mod.rs` -/

/-- `PROTOCOL_VERSION`. -/
def protocolVersion : Nat := 1

/-- `Message` from `src/protocol/mod.rs`; strings (filenames, checksums,
error text) are carried as UTF-8 byte lists. -/
inductive Message where
  | hello (version : Nat)
  | keyExchange (data : List Nat)
  | metadata (filename : List Nat) (size : Nat) (is_directory : Bool) (checksum : List Nat)
  | chunk (index : Nat) (data : List Nat)
  | resume (from_chunk : Nat)
  | complete
  | error (message : List Nat)
  | ack
deriving DecidableEq

/-- `Message::to_bytes` uses `bincode::serialize` with the default
configuration: the enum variant index as a little-endian `u32`, integers
fixed-width little-endian, and byte vectors and strings prefixed with
their `u64` length. -/
def Message.toBytes : Message → List Nat
  | .hello v => u32le 0 ++ [v % 256]
  | .keyExchange d => u32le 1 ++ u64le d.length ++ d
  | .metadata f s dir c =>
      u32le 2 ++ u64le f.length ++ f ++ u64le s ++ [if dir then 1 else 0] ++
      u64le c.length ++ c
  | .chunk i d => u32le 3 ++ u64le i ++ u64le d.length ++ d
  | .resume fc => u32le 4 ++ u64le fc
  | .complete => u32le 5
  | .error m => u32le 6 ++ u64le m.length ++ m
  | .ack => u32le 7

/-! ### `src/network/mod.rs` -/

/-- `MESSAGE_SIZE_BYTES`: the 4-byte big-endian length header. -/
def messageSizeBytes : Nat := 4

/-- The `100 * 1024 * 1024` bound checked by `Connection::receive`. -/
def maxMessageLen : Nat := 100 * 1024 * 1024

/-- Big-endian `u32` read of the first four bytes. -/
def beU32 (b : List Nat) : Nat :=
  b.getD 0 0 * 2 ^ 24 + b.getD 1 0 * 2 ^ 16 + b.getD 2 0 * 2 ^ 8 + b.getD 3 0

/-- Errors `Connection::receive` can surface: a failed `read_exact`
(socket closed early) or the oversized-length rejection. -/
inductive RecvError where
  | eof
  | tooLarge (len : Nat)
deriving DecidableEq

/-- `Connection::receive` over the incoming byte stream: read the 4-byte
big-endian length, reject lengths over 100 MiB before allocating or
reading any payload, otherwise read exactly that many payload bytes.
Returns the message and the unconsumed remainder of the stream. -/
def Connection.receive (stream : List Nat) : Except RecvError (List Nat × List Nat) :=
  if stream.length < messageSizeBytes then Except.error RecvError.eof
  else
    let len := beU32 (stream.take messageSizeBytes)
    if len > maxMessageLen then Except.error (RecvError.tooLarge len)
    else
      let rest := stream.drop messageSizeBytes
      if rest.length < len then Except.error RecvError.eof
      else Except.ok (rest.take len, rest.drop len)

/-! ### `src/transfer/mod.rs` -/

/-- `CHUNK_SIZE = 64 * 1024`. -/
def chunkSize : Nat := 64 * 1024

/-- The chunk sequence `FileChunker` produces for a file: successive
`CHUNK_SIZE` slices from byte offset 0, the final one possibly shorter,
none for an empty file. -/
def fileChunks (file : List Nat) : List (List Nat) := blocksOf chunkSize file

/-- `FileWriter` state: the running byte count and the size announced in
`Metadata` (`expected_size`). File contents are not tracked; the claims
concern the byte accounting. -/
structure FileWriter where
  bytes_written : Nat
  expected_size : Nat
deriving DecidableEq

/-- `FileWriter::new`. -/
def FileWriter.new (expected_size : Nat) : FileWriter := ⟨0, expected_size⟩

/-- `FileWriter::write_chunk`: write the bytes and add their count. -/
def FileWriter.write_chunk (w : FileWriter) (data : List Nat) : FileWriter :=
  { w with bytes_written := w.bytes_written + data.length }

/-- `FileWriter::finalize`: `sync_all` the file and return `Ok(())`;
no comparison of `bytes_written` against `expected_size` is made. -/
def FileWriter.finalize (_w : FileWriter) : Except String Unit :=
  Except.ok ()

/-! ### `src/main.rs` — the two client state machines, modelled as the
message transcripts they produce and consume after the TCP connection is
up.  Suspending socket reads are modelled by passing the received
messages as explicit lists. -/

/-- Outcome of the receiver chunk loop in `receive_file`. -/
inductive RecvOutcome where
  | completed (w : FileWriter)
  | failed (msg : String)
  | pending (w : FileWriter)
deriving DecidableEq

/-- UTF-8 bytes of a string, for relaying `Error` payload text into the
`anyhow` message produced by `receive_file`. -/
def utf8 (s : String) : List Nat := s.toList.map Char.toNat

/-- The chunk-receiving loop of `receive_file` (lines 217-254): a `Chunk`
is written (its index field is ignored by the code), `Complete` finalizes
and exits the loop, `Error` and unexpected variants abort.  `pending`
models a loop still blocked on the next `receive`. -/
def recvLoop (w : FileWriter) : List Message → RecvOutcome
  | [] => RecvOutcome.pending w
  | m :: rest =>
    match m with
    | .chunk _ data => recvLoop (w.write_chunk data) rest
    | .complete =>
        match w.finalize with
        | .ok _ => RecvOutcome.completed w
        | .error e => RecvOutcome.failed e
    | .error msg => RecvOutcome.failed ("Transfer error: " ++ String.mk (msg.map Char.ofNat))
    | _ => RecvOutcome.failed "Unexpected message type"

/-- The plaintext protocol messages `receive_file` sends, in order: the
unsealed `Hello`, then the unsealed `Ack` after `Metadata` arrives.  The
`resume` command-line flag is accepted but never consulted, so it is a
parameter with no effect on the output. -/
def receiverSentMsgs (_resume : Bool) : List Message :=
  [Message.hello protocolVersion, Message.ack]

/-- The exact byte frames `receive_file` hands to `Connection::send`:
`Hello` via `to_bytes` with no encryption, and `Ack` via `to_bytes` with
no encryption (line 206 sends `ack.to_bytes()` directly). -/
def receiverWire (_resume : Bool) : List (List Nat) :=
  [(Message.hello protocolVersion).toBytes, Message.ack.toBytes]

/-- `send_file` after sending `Metadata` waits for one message and
requires it to be `Ack` (lines 94-99); anything else, including a
`Resume`, aborts with `Expected Ack message`. -/
def senderAckGate : Message → Except String Unit
  | .ack => Except.ok ()
  | _ => Except.error "Expected Ack message"

/-- The `Chunk` messages `send_file` emits: `chunk_index` starts at `0u64`
and the chunker always reads from byte offset 0, with no resume offset. -/
def chunkMsgsFrom (j : Nat) : List (List Nat) → List Message
  | [] => []
  | d :: rest => Message.chunk j d :: chunkMsgsFrom (j + 1) rest

/-- All chunk messages for a file. -/
def senderChunkMsgs (file : List Nat) : List Message :=
  chunkMsgsFrom 0 (fileChunks file)

/-- The encrypted chunk frames of `send_file`, consuming one fresh nonce
per `Cipher::encrypt` call from the nonce source `n` starting at `ni`. -/
def chunkWireFrames (c : Cipher) (n : Nat → List Nat) : Nat → Nat → List (List Nat) → List (List Nat)
  | _, _, [] => []
  | ni, j, d :: rest =>
      c.encrypt (n ni) (Message.chunk j d).toBytes ::
      chunkWireFrames c n (ni + 1) (j + 1) rest

/-- The metadata fields `send_file` announces. -/
structure FileMetadata where
  name : List Nat
  size : Nat
  is_directory : Bool
  checksum : List Nat

/-- The exact byte frames `send_file` hands to `Connection::send` on the
happy path, in order: the unsealed `Hello`, the sealed `Metadata`, the
sealed `Chunk`s, and the sealed `Complete`. -/
def senderWire (c : Cipher) (meta : FileMetadata) (file : List Nat)
    (n : Nat → List Nat) : List (List Nat) :=
  (Message.hello protocolVersion).toBytes ::
  c.encrypt (n 0)
    (Message.metadata meta.name meta.size meta.is_directory meta.checksum).toBytes ::
  (chunkWireFrames c n 1 0 (fileChunks file) ++
   [c.encrypt (n (1 + (fileChunks file).length)) Message.complete.toBytes])

/-! ### `src/relay/protocol.rs` and `src/relay/server.rs`

The relay serializes all shared-state access through the single
`Mutex<HashMap<..>>`, and each connection task handles its websocket
messages one at a time, so a run of the server is modelled as a sequence
of atomic events (a text control message, a binary frame, or a
disconnect, each tagged with the session it arrives on) interpreted
against the table, the per-session local variables `code_hash` / `role`,
and the set of sessions whose handler has returned.  A `tx.send` to a
session's outbound queue is recorded as an output pair. -/

/-- `Role` from `src/relay/protocol.rs`. -/
inductive Role where
  | sender
  | receiver
deriving DecidableEq

/-- `RelayMessage` from `src/relay/protocol.rs`; message text is kept as
a `String` exactly as in the source. -/
inductive RelayMessage where
  | register (role : Role) (code_hash : String)
  | matched
  | relayError (message : String)
  | ping
  | pong
deriving DecidableEq

/-- A waiting `Peer` entry of the table: its role and the session whose
queue its `tx` feeds (`addr` is only printed, so it is omitted). -/
structure Peer where
  role : Role
  sid : Nat
deriving DecidableEq

/-- The `HashMap<String, Peer>` behind the mutex, as an association list
with unique keys. -/
abbrev PeerMap := List (String × Peer)

/-- `HashMap::get`. -/
def peerGet (t : PeerMap) (ch : String) : Option Peer :=
  (t.find? (fun p => p.1 = ch)).map Prod.snd

/-- `HashMap::insert` (replacing any entry under the same key). -/
def peerInsert (t : PeerMap) (ch : String) (v : Peer) : PeerMap :=
  (ch, v) :: t.filter (fun p => ¬ p.1 = ch)

/-- `HashMap::remove`. -/
def peerRemove (t : PeerMap) (ch : String) : PeerMap :=
  t.filter (fun p => ¬ p.1 = ch)

/-- The local variables of one `handle_connection` task. -/
structure SessionSt where
  codeHash : Option String
  role : Option Role
deriving DecidableEq

/-- Global relay state: the peer table, each session's locals, and the
sessions whose handler has returned. -/
structure RelaySt where
  table : PeerMap
  sessions : Nat → SessionSt
  closed : List Nat

/-- The state before any connection: empty table, fresh locals. -/
def relayInit : RelaySt :=
  ⟨[], fun _ => ⟨none, none⟩, []⟩

/-- Update one session's locals. -/
def RelaySt.setSession (s : RelaySt) (sid : Nat) (v : SessionSt) : RelaySt :=
  { s with sessions := fun x => if x = sid then v else s.sessions x }

/-- The cleanup at the end of `handle_connection` (lines 152-157): if the
session had set `code_hash`, remove that table entry; the handler is done
either way. -/
def RelaySt.terminate (s : RelaySt) (sid : Nat) : RelaySt :=
  { s with
    closed := sid :: s.closed
    table := match (s.sessions sid).codeHash with
             | some ch => peerRemove s.table ch
             | none => s.table }

/-- One websocket message arriving on a session, or its disconnect. -/
inductive Event where
  | text (sid : Nat) (m : RelayMessage)
  | binary (sid : Nat) (data : List Nat)
  | close (sid : Nat)

/-- A message queued on a session's outbound channel. -/
inductive OutMsg where
  | text (m : RelayMessage)
  | binary (data : List Nat)
deriving DecidableEq

/-- One step of `handle_connection`, faithful to lines 69-150: text
messages are only interpreted before `code_hash` is set; `Register`
matches, rejects a duplicate role, or inserts a waiting entry (on a
match the existing entry is neither removed nor replaced, and the new
session is never inserted); binary data is forwarded to the peer found
under the session's own `code_hash` only when that entry's role differs
from the session's; `Close` breaks the loop and runs the cleanup. -/
def relayStep (s : RelaySt) (e : Event) : RelaySt × List (Nat × OutMsg) :=
  match e with
  | .text sid m =>
    if sid ∈ s.closed then (s, [])
    else
      match (s.sessions sid).codeHash with
      | some _ => (s, [])
      | none =>
        match m with
        | .register r ch =>
          match peerGet s.table ch with
          | some other =>
            if other.role ≠ r then
              (s.setSession sid ⟨some ch, some r⟩,
               [(sid, OutMsg.text RelayMessage.matched),
                (other.sid, OutMsg.text RelayMessage.matched)])
            else
              (s.terminate sid,
               [(sid, OutMsg.text (RelayMessage.relayError "Both peers have the same role"))])
          | none =>
            ({ (s.setSession sid ⟨some ch, some r⟩) with
               table := peerInsert s.table ch ⟨r, sid⟩ }, [])
        | .ping => (s, [(sid, OutMsg.text RelayMessage.pong)])
        | _ =>
          (s.terminate sid,
           [(sid, OutMsg.text (RelayMessage.relayError "Expected Register message"))])
  | .binary sid data =>
    if sid ∈ s.closed then (s, [])
    else
      match (s.sessions sid).codeHash, (s.sessions sid).role with
      | some ch, some myRole =>
        match peerGet s.table ch with
        | some other =>
          if other.role ≠ myRole then (s, [(other.sid, OutMsg.binary data)])
          else (s, [])
        | none => (s, [])
      | _, _ => (s, [])
  | .close sid =>
    if sid ∈ s.closed then (s, []) else (s.terminate sid, [])

/-- Interpret a whole event sequence, accumulating queued outputs. -/
def relayRun (s : RelaySt) : List Event → RelaySt × List (Nat × OutMsg)
  | [] => (s, [])
  | e :: rest =>
    ((relayRun (relayStep s e).1 rest).1,
     (relayStep s e).2 ++ (relayRun (relayStep s e).1 rest).2)

/-! ## Helper lemmas -/

theorem chachaKeystream_length (key nonce : List Nat) (len : Nat) :
    (chachaKeystream key nonce len).length = len := by
  simp [chachaKeystream]

theorem chachaXor_length (key nonce msg : List Nat) :
    (chachaXor key nonce msg).length = msg.length := by
  simp [chachaXor, chachaKeystream_length]

theorem poly1305Tag_length (otk msg : List Nat) :
    (poly1305Tag otk msg).length = 16 := by
  simp [poly1305Tag]

theorem aeadEncrypt_length (key nonce pt : List Nat) :
    (aeadEncrypt key nonce pt).length = pt.length + 16 := by
  simp [aeadEncrypt, chachaXor_length, poly1305Tag_length]

theorem zipWith_xor_cancel (pt ks : List Nat) (h : pt.length ≤ ks.length) :
    List.zipWith (fun a b => a ^^^ b)
      (List.zipWith (fun a b => a ^^^ b) pt ks) ks = pt := by
  induction pt generalizing ks with
  | nil => simp
  | cons p ps ih =>
    cases ks with
    | nil => simp at h
    | cons k kk =>
      simp only [List.zipWith_cons_cons]
      rw [ih kk (by simpa using h)]
      congr 1
      rw [Nat.xor_assoc, Nat.xor_self, Nat.xor_zero]

theorem chachaXor_chachaXor (key nonce pt : List Nat) :
    chachaXor key nonce (chachaXor key nonce pt) = pt := by
  have h1 : (chachaXor key nonce pt).length = pt.length := chachaXor_length key nonce pt
  show List.zipWith (fun a b => a ^^^ b) (chachaXor key nonce pt)
      (chachaKeystream key nonce (chachaXor key nonce pt).length) = pt
  rw [h1]
  exact zipWith_xor_cancel pt _ (le_of_eq (chachaKeystream_length key nonce pt.length).symm)

theorem aeadDecrypt_aeadEncrypt (key nonce pt : List Nat) :
    aeadDecrypt key nonce (aeadEncrypt key nonce pt) = some pt := by
  have hct : (chachaXor key nonce pt).length = pt.length := chachaXor_length key nonce pt
  have htag := poly1305Tag_length (aeadOtk key nonce) (aeadMacData (chachaXor key nonce pt))
  simp only [aeadEncrypt, aeadDecrypt, List.length_append, htag, hct]
  rw [if_neg (by omega)]
  have e1 : pt.length + 16 - 16 = pt.length := by omega
  rw [e1, List.take_left' hct, List.drop_left' hct, if_pos rfl, chachaXor_chachaXor]

theorem cipher_decrypt_encrypt (c : Cipher) (nonceBytes pt : List Nat)
    (h : nonceBytes.length = nonceSize) :
    c.decrypt (c.encrypt nonceBytes pt) = Except.ok pt := by
  have hlen : (nonceBytes ++ aeadEncrypt c.key nonceBytes pt).length =
      nonceSize + (pt.length + 16) := by
    simp [aeadEncrypt_length, h]
  show Cipher.decrypt c (nonceBytes ++ aeadEncrypt c.key nonceBytes pt) = Except.ok pt
  simp only [Cipher.decrypt, hlen]
  rw [if_neg (by omega), List.take_left' h, List.drop_left' h, aeadDecrypt_aeadEncrypt]

/-- Well-formedness of the peer table: one entry per code hash, the
property `HashMap<String, Peer>` gives the Rust table. -/
def TableWF (t : PeerMap) : Prop := (t.map Prod.fst).Nodup

theorem tableWF_remove {t : PeerMap} (hw : TableWF t) (ch : String) :
    TableWF (peerRemove t ch) :=
  hw.sublist ((List.filter_sublist t).map Prod.fst)

theorem tableWF_insert {t : PeerMap} (hw : TableWF t) (ch : String) (v : Peer) :
    TableWF (peerInsert t ch v) := by
  unfold TableWF peerInsert
  rw [List.map_cons, List.nodup_cons]
  refine ⟨?_, hw.sublist ((List.filter_sublist t).map Prod.fst)⟩
  intro hmem
  rcases List.mem_map.mp hmem with ⟨p, hp, hfst⟩
  have := List.of_mem_filter hp
  simp [hfst] at this

theorem relayStep_wf {s : RelaySt} (e : Event) (hw : TableWF s.table) :
    TableWF (relayStep s e).1.table := by
  have hterm : ∀ sid, TableWF (s.terminate sid).table := by
    intro sid
    unfold RelaySt.terminate
    cases (s.sessions sid).codeHash with
    | none => exact hw
    | some ch => exact tableWF_remove hw ch
  cases e with
  | text sid m =>
    simp only [relayStep]
    split
    · exact hw
    · split
      · exact hw
      · cases m with
        | register r ch =>
          simp only []
          split
          · split
            · exact hw
            · exact hterm sid
          · exact tableWF_insert hw ch _
        | matched => exact hterm sid
        | relayError msg => exact hterm sid
        | ping => exact hw
        | pong => exact hterm sid
  | binary sid data =>
    simp only [relayStep]
    split
    · exact hw
    · split
      · split
        · split
          · exact hw
          · exact hw
        · exact hw
      · exact hw
  | close sid =>
    simp only [relayStep]
    split
    · exact hw
    · exact hterm sid

theorem relayRun_wf (evs : List Event) :
    ∀ s : RelaySt, TableWF s.table → TableWF (relayRun s evs).1.table := by
  induction evs with
  | nil => intro s hw; exact hw
  | cons e rest ih =>
    intro s hw
    exact ih _ (relayStep_wf e hw)

theorem filter_length_le_one_of_wf {t : PeerMap} (hw : TableWF t) (ch : String) :
    (t.filter (fun p => p.1 = ch)).length ≤ 1 := by
  induction t with
  | nil => simp
  | cons p rest ih =>
    unfold TableWF at hw
    rw [List.map_cons, List.nodup_cons] at hw
    by_cases hp : p.1 = ch
    · have hrest : rest.filter (fun q => q.1 = ch) = [] := by
        rw [List.filter_eq_nil_iff]
        intro q hq hdec
        exact hw.1 (hp ▸ (by simpa using hdec : q.1 = ch) ▸ List.mem_map_of_mem Prod.fst hq)
      simp [List.filter_cons, hp, hrest]
    · simpa [List.filter_cons, hp] using ih hw.2

/-! ## Claims -/

/-- C1 (code evaluation at the failing behaviour): `KeyExchange::finish`
returns the placeholder secret `Ok(vec![0u8; 32])` for every code, role,
and peer message.  Two runs on the same code therefore agree, but two
runs on *distinct* codes produce the same secret as well, contradicting
the claim that differing codes yield differing secrets. -/
theorem keyExchange_finish_constant (code1 code2 : String) (m1 m2 : List Nat) :
    (KeyExchange.new_sender code1).finish m1 = Except.ok (List.replicate 32 0) ∧
    (KeyExchange.new_receiver code2).finish m2 = Except.ok (List.replicate 32 0) ∧
    (KeyExchange.new_sender code1).finish m1 = (KeyExchange.new_receiver code2).finish m2 :=
  ⟨rfl, rfl, rfl⟩

/-- C7: for every cipher key and every plaintext, including the empty
one, `Cipher::decrypt` applied to the output of `Cipher::encrypt` under
the same cipher returns the original plaintext, and the sealed frame is
the fixed-length 12-byte nonce prepended to the ciphertext. -/
theorem cipher_open_seal_roundtrip (c : Cipher) (nonceBytes pt : List Nat)
    (h : nonceBytes.length = nonceSize) :
    c.decrypt (c.encrypt nonceBytes pt) = Except.ok pt ∧
    (c.encrypt nonceBytes pt).take nonceSize = nonceBytes ∧
    (c.encrypt nonceBytes pt).drop nonceSize = aeadEncrypt c.key nonceBytes pt :=
  ⟨cipher_decrypt_encrypt c nonceBytes pt h,
   List.take_left' h, List.drop_left' h⟩

/-- C7 witness: the roundtrip at a concrete key, nonce and plaintext. -/
theorem cipher_open_seal_roundtrip_witness :
    (Cipher.mk (List.replicate 32 7)).decrypt
      ((Cipher.mk (List.replicate 32 7)).encrypt (List.replicate 12 3) [1, 2, 3]) =
      Except.ok [1, 2, 3] :=
  (cipher_open_seal_roundtrip (Cipher.mk (List.replicate 32 7))
    (List.replicate 12 3) [1, 2, 3] (by decide)).1

/-- C9: a received 4-byte big-endian length over 100 MiB makes
`Connection::receive` fail with the oversized-message error no matter
what bytes follow the header (so the payload is neither read nor
buffered), while a length of at most 100 MiB is never rejected as too
large. -/
theorem receive_frame_bound (pfx rest : List Nat)
    (h : pfx.length = messageSizeBytes) :
    (maxMessageLen < beU32 pfx →
      Connection.receive (pfx ++ rest) = Except.error (RecvError.tooLarge (beU32 pfx))) ∧
    (beU32 pfx ≤ maxMessageLen →
      ∀ n, Connection.receive (pfx ++ rest) ≠ Except.error (RecvError.tooLarge n)) := by
  have hlen : (pfx ++ rest).length = messageSizeBytes + rest.length := by
    simp [h]
  have htake : (pfx ++ rest).take messageSizeBytes = pfx := List.take_left' h
  have hdrop : (pfx ++ rest).drop messageSizeBytes = rest := List.drop_left' h
  constructor
  · intro hbig
    simp only [Connection.receive, hlen, htake]
    rw [if_neg (by omega), if_pos hbig]
  · intro hsmall n
    simp only [Connection.receive, hlen, htake, hdrop]
    rw [if_neg (by omega), if_neg (by omega)]
    split
    · simp
    · simp

/-- C9 witness: the all-ones header (4 GiB minus one) is rejected as too
large regardless of the following bytes, and a 1-byte header is not. -/
theorem receive_frame_bound_witness :
    Connection.receive ([255, 255, 255, 255] ++ [0, 1, 2]) =
      Except.error (RecvError.tooLarge (beU32 [255, 255, 255, 255])) ∧
    ∀ n, Connection.receive ([0, 0, 0, 1] ++ [9]) ≠ Except.error (RecvError.tooLarge n) :=
  ⟨(receive_frame_bound [255, 255, 255, 255] [0, 1, 2] (by decide)).1 (by decide),
   (receive_frame_bound [0, 0, 0, 1] [9] (by decide)).2 (by decide)⟩

/-- C10: `Cipher::decrypt` is total: every input shorter than the
12-byte nonce yields the `Data too short to contain nonce` error, and
every input of at least 12 bytes yields either a plaintext or the
decryption-failure error — no input escapes these cases. -/
theorem cipher_decrypt_total (c : Cipher) (data : List Nat) :
    (data.length < nonceSize →
      c.decrypt data = Except.error "Data too short to contain nonce") ∧
    (nonceSize ≤ data.length →
      (∃ pt, c.decrypt data = Except.ok pt) ∨
      c.decrypt data = Except.error "Decryption failed") := by
  constructor
  · intro h
    simp only [Cipher.decrypt]
    rw [if_pos h]
  · intro h
    simp only [Cipher.decrypt]
    rw [if_neg (by omega)]
    cases haead : aeadDecrypt c.key (data.take nonceSize) (data.drop nonceSize) with
    | some pt => exact Or.inl ⟨pt, rfl⟩
    | none => exact Or.inr rfl

/-- C10 witness: a 1-byte input hits the short-input error, and a
16-byte input (12-byte nonce plus a 4-byte remainder, too short for the
16-byte tag) is a decryption error, not a panic. -/
theorem cipher_decrypt_total_witness :
    (Cipher.mk (List.replicate 32 0)).decrypt [0] =
      Except.error "Data too short to contain nonce" ∧
    ((∃ pt, (Cipher.mk (List.replicate 32 0)).decrypt (List.replicate 16 0) = Except.ok pt) ∨
      (Cipher.mk (List.replicate 32 0)).decrypt (List.replicate 16 0) =
        Except.error "Decryption failed") :=
  ⟨(cipher_decrypt_total (Cipher.mk (List.replicate 32 0)) [0]).1 (by decide),
   (cipher_decrypt_total (Cipher.mk (List.replicate 32 0)) (List.replicate 16 0)).2 (by decide)⟩

/-- C2 counterexample: a `Sender` registration on session 1 followed by a
`Receiver` registration on session 2 under the same code hash queues a
`Matched` notification to both sessions, yet the table entry for that
code hash is still present afterwards — it is not removed at the moment
of matching. -/
theorem peer_entry_survives_match :
    (relayRun relayInit
      [Event.text 1 (RelayMessage.register Role.sender "h"),
       Event.text 2 (RelayMessage.register Role.receiver "h")]).2 =
      [(2, OutMsg.text RelayMessage.matched), (1, OutMsg.text RelayMessage.matched)] ∧
    peerGet (relayRun relayInit
      [Event.text 1 (RelayMessage.register Role.sender "h"),
       Event.text 2 (RelayMessage.register Role.receiver "h")]).1.table "h" =
      some ⟨Role.sender, 1⟩ := by
  exact ⟨rfl, rfl⟩

/-- C2 amended: (a) after every event sequence, each code hash has at
most one table entry, so in particular never two waiting registrations
of the same role; (b) when a registration meets a waiting entry of a
different role, both sessions are queued a `Matched` notification and
the table is left *unchanged* — the matched entry stays in place (it is
what routes the forwarded frames) and is removed only when a registered
session later disconnects, not at the moment of matching. -/
theorem peer_table_one_shot_invariant :
    (∀ (evs : List Event) (ch : String),
      ((relayRun relayInit evs).1.table.filter (fun p => p.1 = ch)).length ≤ 1) ∧
    (∀ (s : RelaySt) (sid : Nat) (r : Role) (ch : String) (other : Peer),
      sid ∉ s.closed → (s.sessions sid).codeHash = none →
      peerGet s.table ch = some other → other.role ≠ r →
      (relayStep s (Event.text sid (RelayMessage.register r ch))).2 =
        [(sid, OutMsg.text RelayMessage.matched),
         (other.sid, OutMsg.text RelayMessage.matched)] ∧
      (relayStep s (Event.text sid (RelayMessage.register r ch))).1.table = s.table) := by
  constructor
  · intro evs ch
    exact filter_length_le_one_of_wf
      (relayRun_wf evs relayInit (by simp [TableWF, relayInit])) ch
  · intro s sid r ch other h1 h2 h3 h4
    simp only [relayStep, h2, h3, if_neg h1, if_pos h4]
    exact ⟨trivial, rfl⟩

/-- C2 witness: part (b) at the concrete state reached after the first
registration. -/
theorem peer_table_one_shot_invariant_witness :
    (relayStep (relayRun relayInit [Event.text 1 (RelayMessage.register Role.sender "h")]).1
        (Event.text 2 (RelayMessage.register Role.receiver "h"))).2 =
      [(2, OutMsg.text RelayMessage.matched), (1, OutMsg.text RelayMessage.matched)] ∧
    (relayStep (relayRun relayInit [Event.text 1 (RelayMessage.register Role.sender "h")]).1
        (Event.text 2 (RelayMessage.register Role.receiver "h"))).1.table =
      (relayRun relayInit [Event.text 1 (RelayMessage.register Role.sender "h")]).1.table :=
  peer_table_one_shot_invariant.2 _ 2 Role.receiver "h" ⟨Role.sender, 1⟩
    (by decide) rfl rfl (by decide)

/-- C3 (code evaluation at the failing input): after sessions 1 (Sender,
first to wait) and 2 (Receiver, registered second) are matched under one
code hash, a binary frame from session 2 is forwarded verbatim to
session 1, but a binary frame from session 1 is forwarded to no one —
the table still maps the code hash to session 1 itself, whose role
equals the sending session's, so the forwarding guard drops the frame.
Forwarding is not symmetric. -/
theorem relay_forward_one_direction :
    (relayRun relayInit
      [Event.text 1 (RelayMessage.register Role.sender "h"),
       Event.text 2 (RelayMessage.register Role.receiver "h"),
       Event.binary 1 [42],
       Event.binary 2 [7]]).2 =
      [(2, OutMsg.text RelayMessage.matched), (1, OutMsg.text RelayMessage.matched),
       (1, OutMsg.binary [7])] ∧
    (2, OutMsg.binary [42]) ∉
      (relayRun relayInit
        [Event.text 1 (RelayMessage.register Role.sender "h"),
         Event.text 2 (RelayMessage.register Role.receiver "h"),
         Event.binary 1 [42],
         Event.binary 2 [7]]).2 := by
  decide

/-- C8 counterexample: on a duplicate-role registration the relay queues
`Error` with the message text `Both peers have the same role`, not the
literal `duplicate role` of the claim (the rest of the claimed behaviour
— new session closed, table and original registration untouched — does
hold, as the amended theorem states). -/
theorem duplicate_role_message_text :
    (relayRun relayInit
      [Event.text 1 (RelayMessage.register Role.sender "h"),
       Event.text 2 (RelayMessage.register Role.sender "h")]).2 =
      [(2, OutMsg.text (RelayMessage.relayError "Both peers have the same role"))] ∧
    "Both peers have the same role" ≠ "duplicate role" ∧
    (relayRun relayInit
      [Event.text 1 (RelayMessage.register Role.sender "h"),
       Event.text 2 (RelayMessage.register Role.sender "h")]).1.table =
      [("h", ⟨Role.sender, 1⟩)] ∧
    2 ∈ (relayRun relayInit
      [Event.text 1 (RelayMessage.register Role.sender "h"),
       Event.text 2 (RelayMessage.register Role.sender "h")]).1.closed := by
  decide

/-- C8 amended: when a registration arrives for a code hash whose entry
holds a waiting registration of the same role, the relay queues
`Error("Both peers have the same role")` to the new session, the new
session's handler returns (the session is closed), and the table — in
particular the original waiting registration — is left untouched, as are
all session locals. -/
theorem duplicate_role_rejection (s : RelaySt) (sid : Nat) (r : Role)
    (ch : String) (other : Peer)
    (h1 : sid ∉ s.closed) (h2 : (s.sessions sid).codeHash = none)
    (h3 : peerGet s.table ch = some other) (h4 : other.role = r) :
    (relayStep s (Event.text sid (RelayMessage.register r ch))).2 =
      [(sid, OutMsg.text (RelayMessage.relayError "Both peers have the same role"))] ∧
    (relayStep s (Event.text sid (RelayMessage.register r ch))).1.table = s.table ∧
    (relayStep s (Event.text sid (RelayMessage.register r ch))).1.sessions = s.sessions ∧
    (relayStep s (Event.text sid (RelayMessage.register r ch))).1.closed = sid :: s.closed := by
  simp only [relayStep, h2, h3, if_neg h1, if_neg (show ¬ other.role ≠ r by simp [h4])]
  refine ⟨trivial, ?_, rfl, rfl⟩
  simp only [RelaySt.terminate, h2]

/-- C8 witness: the rejection at the concrete state reached after a
first `Sender` registration, with a second `Sender` registration under
the same code hash. -/
theorem duplicate_role_rejection_witness :
    (relayStep (relayRun relayInit [Event.text 1 (RelayMessage.register Role.sender "h")]).1
        (Event.text 2 (RelayMessage.register Role.sender "h"))).2 =
      [(2, OutMsg.text (RelayMessage.relayError "Both peers have the same role"))] ∧
    (relayStep (relayRun relayInit [Event.text 1 (RelayMessage.register Role.sender "h")]).1
        (Event.text 2 (RelayMessage.register Role.sender "h"))).1.table =
      (relayRun relayInit [Event.text 1 (RelayMessage.register Role.sender "h")]).1.table ∧
    (relayStep (relayRun relayInit [Event.text 1 (RelayMessage.register Role.sender "h")]).1
        (Event.text 2 (RelayMessage.register Role.sender "h"))).1.sessions =
      (relayRun relayInit [Event.text 1 (RelayMessage.register Role.sender "h")]).1.sessions ∧
    (relayStep (relayRun relayInit [Event.text 1 (RelayMessage.register Role.sender "h")]).1
        (Event.text 2 (RelayMessage.register Role.sender "h"))).1.closed =
      2 :: (relayRun relayInit [Event.text 1 (RelayMessage.register Role.sender "h")]).1.closed :=
  duplicate_role_rejection _ 2 Role.sender "h" ⟨Role.sender, 1⟩
    (by decide) rfl rfl rfl

/-- C4 counterexample: a receiver that announced 10 bytes, wrote a
single 5-byte chunk, and then got `Complete` finishes with outcome
`completed` and `bytes_written = 5 ≠ 10` — the mismatch is silently
accepted, with no `TransferIncomplete` failure. -/
theorem complete_accepts_short_transfer :
    recvLoop (FileWriter.new 10) [Message.chunk 0 [1, 2, 3, 4, 5], Message.complete] =
      RecvOutcome.completed ⟨5, 10⟩ ∧ (5 : Nat) ≠ 10 := by
  decide

/-- C4 amended: when the receiver processes `Complete` it finalizes
(`sync_all`) the sink and reports success unconditionally: for every
prior writer state and every chunk sequence followed by `Complete`, the
loop ends `completed` with the accumulated byte count, performing no
comparison of bytes written against the announced size and never
failing with `TransferIncomplete`. -/
theorem complete_finalizes_without_size_check (w : FileWriter)
    (chunks : List (Nat × List Nat)) :
    recvLoop w (chunks.map (fun p => Message.chunk p.1 p.2) ++ [Message.complete]) =
      RecvOutcome.completed
        ⟨w.bytes_written + (chunks.map (fun p => p.2.length)).sum, w.expected_size⟩ := by
  induction chunks generalizing w with
  | nil =>
    simp [recvLoop, FileWriter.finalize]
  | cons c rest ih =>
    simp only [List.map_cons, List.cons_append, recvLoop, FileWriter.write_chunk,
      List.append_eq, ih, List.sum_cons, RecvOutcome.completed.injEq, FileWriter.mk.injEq]
    exact ⟨by omega, trivial⟩

/-- Every frame produced by the chunk loop of `send_file` is a
`Cipher::encrypt` output. -/
theorem mem_chunkWireFrames (c : Cipher) (n : Nat → List Nat) :
    ∀ (ni j : Nat) (l : List (List Nat)) (f : List Nat),
      f ∈ chunkWireFrames c n ni j l → ∃ nn pt, f = c.encrypt nn pt := by
  intro ni j l
  induction l generalizing ni j with
  | nil => intro f hf; simp [chunkWireFrames] at hf
  | cons d rest ih =>
    intro f hf
    rcases List.mem_cons.mp hf with hEq | hTail
    · exact ⟨n ni, (Message.chunk j d).toBytes, hEq⟩
    · exact ih (ni + 1) (j + 1) f hTail

/-- C5 counterexample: the receiver sends `Ack` unsealed — the second
frame of its wire output is the 4-byte plain `bincode` encoding of
`Ack`, which cannot be any `Cipher::encrypt` output, since every sealed
frame ends in a 16-byte tag and is therefore at least 16 bytes long.
`Hello` is thus not the only message sent unsealed. -/
theorem ack_sent_unsealed :
    (receiverWire false).getD 1 [] = Message.ack.toBytes ∧
    Message.ack.toBytes = [7, 0, 0, 0] ∧
    ∀ (c : Cipher) (nonceBytes pt : List Nat),
      c.encrypt nonceBytes pt ≠ Message.ack.toBytes := by
  refine ⟨rfl, rfl, ?_⟩
  intro c nonceBytes pt hEq
  have h1 : (c.encrypt nonceBytes pt).length = nonceBytes.length + (pt.length + 16) := by
    simp [Cipher.encrypt, aeadEncrypt_length]
  rw [hEq] at h1
  simp [Message.toBytes, u32le] at h1
  omega

/-- C5 amended: `Hello` and `Ack` are the only protocol messages that
cross the transport unsealed: every frame of the sender's wire output
other than the leading unsealed `Hello` is a `Cipher::encrypt` output
(`Metadata`, every `Chunk`, and `Complete`), and the receiver's wire
output is exactly the unsealed `Hello` followed by the unsealed `Ack`. -/
theorem hello_and_ack_only_unsealed (c : Cipher) (meta : FileMetadata)
    (file : List Nat) (n : Nat → List Nat) (r : Bool) (f : List Nat)
    (hf : f ∈ senderWire c meta file n) :
    (f = (Message.hello protocolVersion).toBytes ∨ ∃ nn pt, f = c.encrypt nn pt) ∧
    receiverWire r = [(Message.hello protocolVersion).toBytes, Message.ack.toBytes] := by
  refine ⟨?_, rfl⟩
  rcases List.mem_cons.mp hf with hEq | hf1
  · exact Or.inl hEq
  rcases List.mem_cons.mp hf1 with hEq | hf2
  · exact Or.inr ⟨n 0, _, hEq⟩
  rcases List.mem_append.mp hf2 with hChunk | hLast
  · exact Or.inr (mem_chunkWireFrames c n 1 0 (fileChunks file) f hChunk)
  · exact Or.inr ⟨n (1 + (fileChunks file).length), Message.complete.toBytes,
      by simpa using hLast⟩

/-- C5 witness: the sealed `Metadata` frame of a concrete empty-file
transfer is in the sender's wire output and is classified as sealed or
the unsealed `Hello`; the receiver's wire output is the plain `Hello`
then the plain `Ack`. -/
theorem hello_and_ack_only_unsealed_witness :
    ((Cipher.mk (List.replicate 32 0)).encrypt (List.replicate 12 0)
        (Message.metadata [] 0 false []).toBytes =
        (Message.hello protocolVersion).toBytes ∨
      ∃ nn pt, (Cipher.mk (List.replicate 32 0)).encrypt (List.replicate 12 0)
          (Message.metadata [] 0 false []).toBytes =
        (Cipher.mk (List.replicate 32 0)).encrypt nn pt) ∧
    receiverWire false = [(Message.hello protocolVersion).toBytes, Message.ack.toBytes] :=
  hello_and_ack_only_unsealed (Cipher.mk (List.replicate 32 0)) ⟨[], 0, false, []⟩
    [] (fun _ => List.replicate 12 0) false _
    (List.mem_cons_of_mem _ (List.mem_cons_self _ _))

/-- C6 (code evaluation): resume is not implemented.  The receiver's
sent messages are `Hello` then `Ack` whatever the value of the `resume`
command-line flag, so `Resume{fromChunk}` is never sent; a `Resume`
arriving at the sender in place of the one-shot `Ack` aborts with
`Expected Ack message`; and the sender's chunk transmission always
starts at index 0 (byte offset 0), never at `fromChunk × chunkSize`. -/
theorem resume_not_implemented (resumeFlag : Bool) (k : Nat) (file : List Nat) :
    Message.resume k ∉ receiverSentMsgs resumeFlag ∧
    senderAckGate (Message.resume k) = Except.error "Expected Ack message" ∧
    (senderChunkMsgs file).head? = (fileChunks file).head?.map (Message.chunk 0) := by
  refine ⟨?_, rfl, ?_⟩
  · simp [receiverSentMsgs]
  · cases h : fileChunks file with
    | nil => simp [senderChunkMsgs, chunkMsgsFrom, h]
    | cons d rest => simp [senderChunkMsgs, chunkMsgsFrom, h]

end Zap
